import Mathlib

/-!
# Verification of the Egyptian mobile-number extraction script

Shallow embedding of `سكريبت_استخراج_الأرقام.py`: the validator
`is_valid_egyptian_mobile`, the regex scan `re.findall` of eleven digits,
and the extractor `extract_mobile_numbers` over parsed JSON data.  Python
strings are modelled as `String` (operated on through `String.data`), parsed
JSON values as the inductive `JValue`, and Python exceptions as
`Except PyExn`.  The embedding starts from the already-parsed JSON value:
file reading and `json.load` failures (which the script maps to an empty
result) are outside the model.  Digits are modelled as ASCII `0`-`9`
(`Char.isDigit`), the digit class exercised by the spec; JSON numbers are
modelled as integers.  The scanning functions are written with an explicit
`Nat` fuel equal to the input length so that they reduce in the kernel;
congruence lemmas below recover the natural unfolding equations.
-/

/-- Character class of the regex digit class, modelled as ASCII `0`-`9`. -/
def isPyDigit (c : Char) : Bool := c.isDigit

/-- `re.sub` of the non-digit class with the empty string (line 23 of the
script): remove every non-digit character, keeping order. -/
def normalizeDigits (s : String) : String := String.mk (s.data.filter isPyDigit)

/-- The fixed Egyptian carrier range list of the script (line 30). -/
def valid_prefixes : List String := ["010", "011", "012", "015"]

/-- `is_valid_egyptian_mobile` (lines 12-31): strip non-digits, require
length 11, then require one of the fixed leading carrier ranges. -/
def is_valid_egyptian_mobile (phone : String) : Bool :=
  let digits := normalizeDigits phone
  if digits.length ≠ 11 then false
  else valid_prefixes.any (fun p => p.data.isPrefixOf digits.data)

/-- Parsed JSON values, as produced by `json.load`. -/
inductive JValue where
  | null
  | bool (b : Bool)
  | num (n : Int)
  | str (s : String)
  | arr (elems : List JValue)
  | obj (fields : List (String × JValue))

mutual

/-- Structural equality of parsed JSON values (Python `==` on the shapes
`json.load` produces). -/
def jeq : JValue → JValue → Bool
  | .null, .null => true
  | .bool a, .bool b => a == b
  | .num a, .num b => a == b
  | .str a, .str b => a == b
  | .arr a, .arr b => jeqList a b
  | .obj a, .obj b => jeqFields a b
  | _, _ => false

/-- Elementwise `jeq` on lists. -/
def jeqList : List JValue → List JValue → Bool
  | [], [] => true
  | a :: arest, b :: brest => jeq a b && jeqList arest brest
  | _, _ => false

/-- Elementwise `jeq` on dict entries. -/
def jeqFields : List (String × JValue) → List (String × JValue) → Bool
  | [], [] => true
  | a :: arest, b :: brest => (a.1 == b.1 && jeq a.2 b.2) && jeqFields arest brest
  | _, _ => false

end

instance : BEq JValue := ⟨jeq⟩

/-- The Python exceptions the embedded operations can raise. -/
inductive PyExn where
  | typeError
  | keyError
  | attributeError
deriving DecidableEq, Repr

mutual

/-- Python `repr` of a parsed JSON value (escaping subtleties aside). -/
def pyRepr : JValue → String
  | .null => "None"
  | .bool b => if b then "True" else "False"
  | .num n => toString n
  | .str s => "\x27" ++ s ++ "\x27"
  | .arr elems => "[" ++ pyReprList elems ++ "]"
  | .obj fields => "\x7b" ++ pyReprFields fields ++ "\x7d"

/-- Comma-separated `repr`s of list elements. -/
def pyReprList : List JValue → String
  | [] => ""
  | [v] => pyRepr v
  | v :: rest => pyRepr v ++ ", " ++ pyReprList rest

/-- Comma-separated `repr`s of dict entries. -/
def pyReprFields : List (String × JValue) → String
  | [] => ""
  | [(k, v)] => "\x27" ++ k ++ "\x27: " ++ pyRepr v
  | (k, v) :: rest => "\x27" ++ k ++ "\x27: " ++ pyRepr v ++ ", " ++ pyReprFields rest

end

/-- Python `str` of a parsed JSON value (line 56 of the script). -/
def pyStr : JValue → String
  | .str s => s
  | v => pyRepr v

/-- Python `key in container` for a string key: key lookup on dicts,
membership on lists, substring test on strings; `TypeError` otherwise. -/
def pyContains (container : JValue) (key : String) : Except PyExn Bool :=
  match container with
  | .obj fields => .ok (fields.any (fun f => f.1 == key))
  | .arr elems => .ok (elems.any (fun v => jeq v (JValue.str key)))
  | .str s => .ok (decide (key.data <:+: s.data))
  | _ => .error .typeError

/-- Python `container[key]` for a string key: dict lookup (`KeyError` when
absent); `TypeError` on lists, strings and scalars. -/
def pyGetItem (container : JValue) (key : String) : Except PyExn JValue :=
  match container with
  | .obj fields =>
    match fields.find? (fun f => f.1 == key) with
    | some f => .ok f.2
    | none => .error .keyError
  | _ => .error .typeError

/-- Python `container.get(key, default)`: defaulted dict lookup;
`AttributeError` on anything that is not a dict. -/
def pyGet (container : JValue) (key : String) (dflt : JValue) : Except PyExn JValue :=
  match container with
  | .obj fields =>
    match fields.find? (fun f => f.1 == key) with
    | some f => .ok f.2
    | none => .ok dflt
  | _ => .error .attributeError

/-- Fuelled form of the `re.findall` scan for eleven consecutive digits:
capture a window of 11 digits and resume after it, otherwise advance one
character. -/
def findall11Go (fuel : Nat) (l : List Char) : List (List Char) :=
  match fuel, l with
  | 0, _ => []
  | _ + 1, [] => []
  | fuel + 1, c :: rest =>
    if 11 ≤ (c :: rest).length ∧ ((c :: rest).take 11).all isPyDigit = true then
      (c :: rest).take 11 :: findall11Go fuel ((c :: rest).drop 11)
    else
      findall11Go fuel rest

/-- `re.findall` of eleven consecutive digits over a character list. -/
def findall11Chars (l : List Char) : List (List Char) := findall11Go l.length l

/-- The regex scan of line 61 of the script, on a Python string. -/
def findall11 (s : String) : List String := (findall11Chars s.data).map String.mk

/-- Fuelled form of `blocks11`. -/
def blocks11Go (fuel : Nat) (r : List Char) : List (List Char) :=
  match fuel with
  | 0 => []
  | fuel + 1 =>
    if 11 ≤ r.length then r.take 11 :: blocks11Go fuel (r.drop 11) else []

/-- The consecutive full 11-character blocks at the front of a list,
`⌊length / 11⌋` of them: the per-run capture shape of the scan. -/
def blocks11 (r : List Char) : List (List Char) := blocks11Go r.length r

/-- Fuelled form of `digitRuns`. -/
def digitRunsGo (fuel : Nat) (l : List Char) : List (List Char) :=
  match fuel, l with
  | 0, _ => []
  | _ + 1, [] => []
  | fuel + 1, c :: rest =>
    if isPyDigit c then
      (c :: rest.takeWhile isPyDigit) :: digitRunsGo fuel (rest.dropWhile isPyDigit)
    else
      digitRunsGo fuel rest

/-- The maximal contiguous digit runs of a character list, in order. -/
def digitRuns (l : List Char) : List (List Char) := digitRunsGo l.length l

/-- An entry of the script's `valid_numbers` list (lines 66-70): a dict
with the company name, the captured number and the company id. -/
structure VEntry where
  name : JValue
  phone : String
  id : JValue

/-- An entry of the script's `invalid_numbers` list (lines 73-77): a dict
with the company name, the captured number and the fixed reason string. -/
structure IEntry where
  name : JValue
  phone : String
  reason : String

/-- The loop guard of line 54:
`'contact_info' in company and 'phone' in company['contact_info']`. -/
def companyHasPhone (company : JValue) : Except PyExn Bool := do
  let hasCI ← pyContains company "contact_info"
  if hasCI then do
    let ci ← pyGetItem company "contact_info"
    pyContains ci "phone"
  else
    pure false

/-- The body of the `for company in data['companies']` loop (lines 53-77):
guard on the phone field, take the string form of the phone value, scan it
for 11-digit windows, and partition the captured numbers by the validator.
A company lacking the phone field contributes nothing. -/
def processCompany (company : JValue) : Except PyExn (List VEntry × List IEntry) := do
  let cond ← companyHasPhone company
  if cond then do
    let ci ← pyGetItem company "contact_info"
    let phoneV ← pyGetItem ci "phone"
    let phone := pyStr phoneV
    let nameV ← pyGet company "company_name_arabic" (JValue.str "غير محدد")
    let idV ← pyGet company "id" (JValue.str "N/A")
    let parts := (findall11 phone).partition is_valid_egyptian_mobile
    pure (parts.1.map (fun p => ⟨nameV, p, idV⟩),
          parts.2.map (fun p => ⟨nameV, p, "غير صحيح"⟩))
  else
    pure ([], [])

/-- The company loop with its two accumulator lists, as mutated by the
script's `append` calls (lines 47-77). -/
def extractLoop (companies : List JValue) (vacc : List VEntry) (iacc : List IEntry) :
    Except PyExn (List VEntry × List IEntry) :=
  match companies with
  | [] => .ok (vacc, iacc)
  | c :: rest =>
    match processCompany c with
    | .error e => .error e
    | .ok r => extractLoop rest (vacc ++ r.1) (iacc ++ r.2)

/-- Python `isinstance(v, list)` on a parsed JSON value. -/
def isListVal (v : JValue) : Bool :=
  match v with
  | .arr _ => true
  | _ => false

/-- The body of `extract_mobile_numbers` after `json.load` (lines 51-82):
the shape guard `'companies' in data and isinstance(data['companies'], list)`
followed by the company loop; a failed guard yields two empty lists. -/
def extractCore (data : JValue) : Except PyExn (List VEntry × List IEntry) := do
  let hasKey ← pyContains data "companies"
  let isArr ←
    if hasKey then do
      let cs ← pyGetItem data "companies"
      pure (isListVal cs)
    else
      pure false
  if isArr then do
    let cs ← pyGetItem data "companies"
    match cs with
    | .arr companies => extractLoop companies [] []
    | _ => pure ([], [])
  else
    pure ([], [])

/-- `extract_mobile_numbers` (lines 33-95) on the parsed JSON value: the
whole body sits in `try ... except Exception: return []`, and only the
`valid_numbers` list is returned — the invalid list is built and printed
but dropped. -/
def extract_mobile_numbers (data : JValue) : List VEntry :=
  match extractCore data with
  | .ok r => r.1
  | .error _ => []

/-- A company record in the shape the script reads: an id, an Arabic
display name, and a phone value under `contact_info`. -/
def mkRecord (id : JValue) (name : String) (phone : JValue) : JValue :=
  JValue.obj [("id", id), ("company_name_arabic", JValue.str name),
    ("contact_info", JValue.obj [("phone", phone)])]

/-- A parsed input file holding the given company records. -/
def mkData (companies : List JValue) : JValue :=
  JValue.obj [("companies", JValue.arr companies)]

theorem length_dropWhile_le {α : Type} (p : α → Bool) : ∀ l : List α, (l.dropWhile p).length ≤ l.length
  | [] => Nat.le_refl _
  | a :: l => by
    rw [List.dropWhile_cons]
    split
    · exact Nat.le_trans (length_dropWhile_le p l) (Nat.le_succ _)
    · exact Nat.le_refl _

theorem findall11Go_congr (fuel : Nat) (l : List Char) (h : l.length ≤ fuel) :
    findall11Go fuel l = findall11Go l.length l := by
  cases fuel with
  | zero =>
    have h0 : l.length = 0 := Nat.le_zero.mp h
    rw [h0]
  | succ fuel =>
    cases l with
    | nil => rfl
    | cons c rest =>
      have hrest : rest.length ≤ fuel := by
        have := h
        simp only [List.length_cons] at this
        omega
      simp only [List.length_cons, findall11Go]
      have hd : ((c :: rest).drop 11).length = rest.length + 1 - 11 := by
        simp [List.length_drop]
      split
      · congr 1
        rw [findall11Go_congr fuel _ (by omega), findall11Go_congr rest.length _ (by omega)]
      · rw [findall11Go_congr fuel _ hrest]
termination_by fuel

theorem findall11Chars_nil : findall11Chars [] = [] := rfl

theorem findall11Chars_cons (c : Char) (rest : List Char) :
    findall11Chars (c :: rest) =
      if 11 ≤ (c :: rest).length ∧ ((c :: rest).take 11).all isPyDigit = true then
        (c :: rest).take 11 :: findall11Chars ((c :: rest).drop 11)
      else
        findall11Chars rest := by
  show findall11Go (c :: rest).length (c :: rest) = _
  simp only [List.length_cons, findall11Go]
  have hd : ((c :: rest).drop 11).length = rest.length + 1 - 11 := by
    simp [List.length_drop]
  split
  · congr 1
    exact findall11Go_congr rest.length _ (by omega)
  · rfl

theorem blocks11Go_not_ge (r : List Char) (h : ¬ 11 ≤ r.length) :
    ∀ fuel, blocks11Go fuel r = [] := by
  intro fuel
  cases fuel with
  | zero => rfl
  | succ fuel =>
    simp only [blocks11Go]
    rw [if_neg h]

theorem blocks11Go_congr (fuel : Nat) (r : List Char) (h : r.length ≤ fuel) :
    blocks11Go fuel r = blocks11Go r.length r := by
  by_cases h11 : 11 ≤ r.length
  · cases fuel with
    | zero => omega
    | succ fuel =>
      obtain ⟨m, hm⟩ : ∃ m, r.length = m + 1 := ⟨r.length - 1, by omega⟩
      rw [hm]
      simp only [blocks11Go]
      rw [if_pos h11, if_pos h11]
      congr 1
      have hd : (r.drop 11).length = r.length - 11 := by simp [List.length_drop]
      rw [blocks11Go_congr fuel _ (by omega), blocks11Go_congr m _ (by omega)]
  · rw [blocks11Go_not_ge r h11, blocks11Go_not_ge r h11]
termination_by fuel

theorem blocks11_eq (r : List Char) :
    blocks11 r = if 11 ≤ r.length then r.take 11 :: blocks11 (r.drop 11) else [] := by
  by_cases h11 : 11 ≤ r.length
  · show blocks11Go r.length r = _
    rw [if_pos h11]
    obtain ⟨m, hm⟩ : ∃ m, r.length = m + 1 := ⟨r.length - 1, by omega⟩
    rw [hm]
    simp only [blocks11Go]
    rw [if_pos h11]
    congr 1
    have hd : (r.drop 11).length = r.length - 11 := by simp [List.length_drop]
    exact blocks11Go_congr m _ (by omega)
  · show blocks11Go r.length r = _
    rw [if_neg h11, blocks11Go_not_ge r h11]

theorem digitRunsGo_congr (fuel : Nat) (l : List Char) (h : l.length ≤ fuel) :
    digitRunsGo fuel l = digitRunsGo l.length l := by
  cases fuel with
  | zero =>
    have h0 : l.length = 0 := Nat.le_zero.mp h
    rw [h0]
  | succ fuel =>
    cases l with
    | nil => rfl
    | cons c rest =>
      have hrest : rest.length ≤ fuel := by
        have := h
        simp only [List.length_cons] at this
        omega
      simp only [List.length_cons, digitRunsGo]
      have hd := length_dropWhile_le isPyDigit rest
      split
      · congr 1
        rw [digitRunsGo_congr fuel _ (by omega),
          digitRunsGo_congr rest.length _ (by omega)]
      · rw [digitRunsGo_congr fuel _ hrest]
termination_by fuel

theorem digitRuns_nil : digitRuns [] = [] := rfl

theorem digitRuns_cons (c : Char) (rest : List Char) :
    digitRuns (c :: rest) =
      if isPyDigit c then
        (c :: rest.takeWhile isPyDigit) :: digitRuns (rest.dropWhile isPyDigit)
      else
        digitRuns rest := by
  show digitRunsGo (c :: rest).length (c :: rest) = _
  simp only [List.length_cons, digitRunsGo]
  have hd := length_dropWhile_le isPyDigit rest
  split
  · congr 1
    exact digitRunsGo_congr rest.length _ (by omega)
  · rfl

theorem takeWhile_mem_pred {α : Type} (p : α → Bool) :
    ∀ (l : List α) (x : α), x ∈ l.takeWhile p → p x = true
  | [], x, h => by simp [List.takeWhile] at h
  | a :: l, x, h => by
    by_cases hpa : p a
    · rw [List.takeWhile_cons_of_pos hpa] at h
      rcases List.mem_cons.mp h with rfl | h'
      · exact hpa
      · exact takeWhile_mem_pred p l x h'
    · rw [List.takeWhile_cons_of_neg hpa] at h
      simp at h

theorem dropWhile_head_false {α : Type} (p : α → Bool) :
    ∀ (l : List α) (d : α) (tl : List α), l.dropWhile p = d :: tl → p d = false
  | [], d, tl, h => by simp [List.dropWhile] at h
  | a :: l, d, tl, h => by
    by_cases hpa : p a
    · rw [List.dropWhile_cons_of_pos hpa] at h
      exact dropWhile_head_false p l d tl h
    · rw [List.dropWhile_cons_of_neg hpa] at h
      injection h with h1 h2
      subst h1
      simp at hpa
      exact hpa

theorem findall11Chars_cons_nondigit (c : Char) (l : List Char) (hc : isPyDigit c = false) :
    findall11Chars (c :: l) = findall11Chars l := by
  rw [findall11Chars_cons, if_neg]
  rintro ⟨h11, hall⟩
  rw [List.take_succ_cons, List.all_cons, hc] at hall
  simp at hall

theorem findall11Chars_append_nondigit (pre l : List Char)
    (hpre : ∀ c ∈ pre, isPyDigit c = false) :
    findall11Chars (pre ++ l) = findall11Chars l := by
  induction pre with
  | nil => simp
  | cons c pre ih =>
    rw [List.cons_append, findall11Chars_cons_nondigit c _ (hpre c (List.mem_cons_self c pre))]
    exact ih (fun d hd => hpre d (List.mem_cons_of_mem c hd))

theorem findall11Chars_short_run (r t : List Char)
    (hr : ∀ c ∈ r, isPyDigit c = true) (hlen : r.length < 11)
    (ht : ∀ c tl, t = c :: tl → isPyDigit c = false) :
    findall11Chars (r ++ t) = findall11Chars t := by
  cases r with
  | nil => simp
  | cons c r' =>
    have hcond : ¬(11 ≤ (c :: (r' ++ t)).length ∧
        ((c :: (r' ++ t)).take 11).all isPyDigit = true) := by
      rintro ⟨h11, hall⟩
      cases t with
      | nil =>
        simp only [List.append_nil, List.length_cons] at h11
        simp only [List.length_cons] at hlen
        omega
      | cons d t' =>
        have hd : isPyDigit d = false := ht d t' rfl
        rw [show (c :: (r' ++ d :: t')) = (c :: r') ++ (d :: t') by simp] at hall
        rw [List.take_append_eq_append_take] at hall
        rw [List.take_of_length_le (by simp only [List.length_cons] at hlen ⊢; omega)] at hall
        have hpos : 11 - ((c :: r').length) = (9 - r'.length) + 1 := by
          simp only [List.length_cons] at hlen ⊢
          omega
        rw [List.all_append, hpos, List.take_succ_cons] at hall
        simp [hd] at hall
    rw [List.cons_append, findall11Chars_cons, if_neg hcond]
    exact findall11Chars_short_run r' t
      (fun d hd => hr d (List.mem_cons_of_mem c hd))
      (by simp only [List.length_cons] at hlen; omega) ht

theorem findall11Chars_capture (l : List Char) (h1 : 11 ≤ l.length)
    (h2 : (l.take 11).all isPyDigit = true) :
    findall11Chars l = l.take 11 :: findall11Chars (l.drop 11) := by
  cases l with
  | nil => simp at h1
  | cons c rest => rw [findall11Chars_cons, if_pos ⟨h1, h2⟩]

theorem findall11Chars_run_append (r t : List Char)
    (hr : ∀ c ∈ r, isPyDigit c = true)
    (ht : ∀ c tl, t = c :: tl → isPyDigit c = false) :
    findall11Chars (r ++ t) = blocks11 r ++ findall11Chars t := by
  by_cases h11 : 11 ≤ r.length
  · rw [findall11Chars_capture (r ++ t)
      (by simp only [List.length_append]; omega)
      (by
        rw [List.take_append_of_le_length h11]
        exact List.all_eq_true.mpr fun x hx => hr x (List.take_subset 11 _ hx))]
    rw [List.take_append_of_le_length h11, List.drop_append_of_le_length h11]
    rw [findall11Chars_run_append (r.drop 11) t
      (fun d hd => hr d (List.drop_subset 11 _ hd)) ht]
    rw [blocks11_eq r, if_pos h11]
    simp
  · rw [findall11Chars_short_run r t hr (by omega) ht, blocks11_eq, if_neg h11]
    simp
termination_by r.length
decreasing_by
  simp only [List.length_drop]
  omega

theorem findall11Chars_eq_runs (l : List Char) :
    findall11Chars l = (digitRuns l).flatMap blocks11 := by
  cases l with
  | nil => rfl
  | cons c rest =>
    by_cases hc : isPyDigit c
    · rw [digitRuns_cons, if_pos hc, List.flatMap_cons]
      have hsplit : c :: rest = (c :: rest.takeWhile isPyDigit) ++ rest.dropWhile isPyDigit := by
        simp [List.takeWhile_append_dropWhile]
      rw [hsplit, findall11Chars_run_append (c :: rest.takeWhile isPyDigit)
        (rest.dropWhile isPyDigit)
        (by
          intro x hx
          rcases List.mem_cons.mp hx with rfl | h'
          · exact hc
          · exact takeWhile_mem_pred isPyDigit rest x h')
        (fun d tl h => dropWhile_head_false isPyDigit rest d tl h)]
      rw [findall11Chars_eq_runs (rest.dropWhile isPyDigit)]
    · have hc' : isPyDigit c = false := by simpa using hc
      rw [findall11Chars_cons_nondigit c rest hc', digitRuns_cons, if_neg hc]
      exact findall11Chars_eq_runs rest
termination_by l.length
decreasing_by
  · simp only [List.length_cons]
    exact Nat.lt_succ_of_le (length_dropWhile_le _ _)
  · simp only [List.length_cons]
    omega

theorem normalizeDigits_all (s : String) : (normalizeDigits s).data.all isPyDigit = true :=
  List.all_eq_true.mpr fun _ hx => (List.mem_filter.mp hx).2

theorem normalizeDigits_of_all (s : String) (h : s.data.all isPyDigit = true) :
    normalizeDigits s = s := by
  show String.mk (s.data.filter isPyDigit) = s
  rw [List.filter_eq_self.mpr (fun a ha => List.all_eq_true.mp h a ha)]

theorem normalizeDigits_idem (s : String) :
    normalizeDigits (normalizeDigits s) = normalizeDigits s :=
  normalizeDigits_of_all _ (normalizeDigits_all s)

theorem is_valid_iff_of_digits11 (d : String) (hall : d.data.all isPyDigit = true)
    (hlen : d.data.length = 11) :
    is_valid_egyptian_mobile d = true ↔
      (d.data.take 3 = ['0', '1', '0'] ∨ d.data.take 3 = ['0', '1', '1'] ∨
        d.data.take 3 = ['0', '1', '2'] ∨ d.data.take 3 = ['0', '1', '5']) := by
  unfold is_valid_egyptian_mobile
  rw [normalizeDigits_of_all d hall]
  have hl : d.length = 11 := hlen
  simp only [hl, ne_eq, not_true_eq_false, if_false, reduceIte]
  simp only [valid_prefixes, List.any_cons, List.any_nil, Bool.or_eq_true,
    Bool.or_false, List.isPrefixOf_iff_prefix, List.prefix_iff_eq_take]
  constructor
  · rintro (h | h | h | h)
    · exact Or.inl h.symm
    · exact Or.inr (Or.inl h.symm)
    · exact Or.inr (Or.inr (Or.inl h.symm))
    · exact Or.inr (Or.inr (Or.inr h.symm))
  · rintro (h | h | h | h)
    · exact Or.inl h.symm
    · exact Or.inr (Or.inl h.symm)
    · exact Or.inr (Or.inr (Or.inl h.symm))
    · exact Or.inr (Or.inr (Or.inr h.symm))

theorem is_valid_false_of_digits_ne11 (s : String) (hall : s.data.all isPyDigit = true)
    (hlen : s.data.length ≠ 11) : is_valid_egyptian_mobile s = false := by
  unfold is_valid_egyptian_mobile
  rw [normalizeDigits_of_all s hall]
  have hl : s.length ≠ 11 := hlen
  simp only [hl, ne_eq, not_false_eq_true, if_true, reduceIte]

theorem is_valid_normalize (s : String) :
    is_valid_egyptian_mobile s = is_valid_egyptian_mobile (normalizeDigits s) := by
  unfold is_valid_egyptian_mobile
  rw [normalizeDigits_idem]

theorem findall11Go_mem : ∀ (fuel : Nat) (l m : List Char), m ∈ findall11Go fuel l →
    m.length = 11 ∧ m.all isPyDigit = true := by
  intro fuel
  induction fuel with
  | zero =>
    intro l m h
    simp [findall11Go] at h
  | succ fuel ih =>
    intro l m h
    cases l with
    | nil => simp [findall11Go] at h
    | cons c rest =>
      simp only [findall11Go] at h
      split at h
      · next hcond =>
        rcases List.mem_cons.mp h with rfl | h'
        · refine ⟨?_, hcond.2⟩
          rw [List.length_take]
          omega
        · exact ih _ m h'
      · exact ih _ m h

theorem findall11_mem (s : String) (m : String) (hm : m ∈ findall11 s) :
    m.data.length = 11 ∧ m.data.all isPyDigit = true := by
  obtain ⟨mc, hmc, rfl⟩ := List.mem_map.mp hm
  exact findall11Go_mem _ _ mc hmc

theorem extractLoop_acc (cs : List JValue) (v₀ : List VEntry) (i₀ : List IEntry) :
    extractLoop cs v₀ i₀ =
      (extractLoop cs [] []).map (fun r => (v₀ ++ r.1, i₀ ++ r.2)) := by
  induction cs generalizing v₀ i₀ with
  | nil => simp [extractLoop, Except.map]
  | cons c rest ih =>
    cases hpc : processCompany c with
    | error e => simp [extractLoop, hpc, Except.map]
    | ok r =>
      simp only [extractLoop, hpc]
      rw [ih (v₀ ++ r.1) (i₀ ++ r.2), ih (([] : List VEntry) ++ r.1) (([] : List IEntry) ++ r.2)]
      cases extractLoop rest [] [] with
      | error e => simp [Except.map]
      | ok r2 => simp [Except.map, List.append_assoc]

theorem extractLoop_append_ok (cs₁ cs₂ : List JValue) (v₁ v₂ : List VEntry)
    (i₁ i₂ : List IEntry)
    (h₁ : extractLoop cs₁ [] [] = .ok (v₁, i₁))
    (h₂ : extractLoop cs₂ [] [] = .ok (v₂, i₂)) :
    extractLoop (cs₁ ++ cs₂) [] [] = .ok (v₁ ++ v₂, i₁ ++ i₂) := by
  induction cs₁ generalizing v₁ i₁ with
  | nil =>
    simp only [extractLoop] at h₁
    injection h₁ with h₁
    cases h₁
    simpa using h₂
  | cons c rest ih =>
    rw [List.cons_append]
    cases hpc : processCompany c with
    | error e =>
      simp only [extractLoop, hpc] at h₁
      exact absurd h₁ (by simp)
    | ok r =>
      simp only [extractLoop, hpc] at h₁ ⊢
      rw [extractLoop_acc] at h₁
      cases hbase : extractLoop rest [] [] with
      | error e =>
        rw [hbase] at h₁
        simp [Except.map] at h₁
      | ok rb =>
        rw [hbase] at h₁
        simp only [Except.map] at h₁
        injection h₁ with h₁
        cases h₁
        rw [extractLoop_acc, ih rb.1 rb.2 hbase]
        simp [Except.map, List.append_assoc]

theorem exceptBind_ok {α β : Type} (a : α) (f : α → Except PyExn β) :
    (Except.ok a >>= f) = f a := rfl

theorem exceptBind_error {α β : Type} (e : PyExn) (f : α → Except PyExn β) :
    ((Except.error e : Except PyExn α) >>= f) = Except.error e := rfl

theorem processCompany_skip (c : JValue) (h : companyHasPhone c = .ok false) :
    processCompany c = .ok ([], []) := by
  unfold processCompany
  rw [h, exceptBind_ok]
  simp [pure, Except.pure]

theorem processCompany_ok_cases (c : JValue) (r : List VEntry × List IEntry)
    (h : processCompany c = .ok r) :
    r = ([], []) ∨
    ∃ (nameV idV : JValue) (phone : String),
      r = (((findall11 phone).partition is_valid_egyptian_mobile).1.map
            (fun p => ⟨nameV, p, idV⟩),
          ((findall11 phone).partition is_valid_egyptian_mobile).2.map
            (fun p => ⟨nameV, p, "غير صحيح"⟩)) := by
  unfold processCompany at h
  cases hc : companyHasPhone c with
  | error e =>
    rw [hc, exceptBind_error] at h
    exact absurd h (by simp)
  | ok cond =>
    rw [hc, exceptBind_ok] at h
    cases cond with
    | false =>
      simp [pure, Except.pure] at h
      exact Or.inl h.symm
    | true =>
      right
      simp only [if_true] at h
      cases hci : pyGetItem c "contact_info" with
      | error e =>
        rw [hci, exceptBind_error] at h
        exact absurd h (by simp)
      | ok ci =>
        rw [hci, exceptBind_ok] at h
        cases hph : pyGetItem ci "phone" with
        | error e =>
          rw [hph, exceptBind_error] at h
          exact absurd h (by simp)
        | ok phoneV =>
          rw [hph, exceptBind_ok] at h
          cases hn : pyGet c "company_name_arabic" (JValue.str "غير محدد") with
          | error e =>
            rw [hn, exceptBind_error] at h
            exact absurd h (by simp)
          | ok nameV =>
            rw [hn, exceptBind_ok] at h
            cases hid : pyGet c "id" (JValue.str "N/A") with
            | error e =>
              rw [hid, exceptBind_error] at h
              exact absurd h (by simp)
            | ok idV =>
              rw [hid, exceptBind_ok] at h
              simp only [pure, Except.pure] at h
              injection h with h
              exact ⟨nameV, idV, pyStr phoneV, h.symm⟩

theorem processCompany_ok_entries (c : JValue) (r : List VEntry × List IEntry)
    (h : processCompany c = .ok r) :
    (∀ e ∈ r.1, e.phone.data.length = 11 ∧ e.phone.data.all isPyDigit = true ∧
      is_valid_egyptian_mobile e.phone = true) ∧
    (∀ e ∈ r.2, e.phone.data.length = 11 ∧ e.phone.data.all isPyDigit = true ∧
      is_valid_egyptian_mobile e.phone = false ∧ e.reason = "غير صحيح") := by
  rcases processCompany_ok_cases c r h with rfl | ⟨nameV, idV, phone, rfl⟩
  · constructor <;> intro e he <;> simp at he
  · constructor
    · intro e he
      simp only [List.partition_eq_filter_filter] at he
      obtain ⟨p, hp, rfl⟩ := List.mem_map.mp he
      obtain ⟨hmem, hvalid⟩ := List.mem_filter.mp hp
      obtain ⟨h11, hall⟩ := findall11_mem phone p hmem
      exact ⟨h11, hall, hvalid⟩
    · intro e he
      simp only [List.partition_eq_filter_filter] at he
      obtain ⟨p, hp, rfl⟩ := List.mem_map.mp he
      obtain ⟨hmem, hvalid⟩ := List.mem_filter.mp hp
      obtain ⟨h11, hall⟩ := findall11_mem phone p hmem
      refine ⟨h11, hall, ?_, rfl⟩
      simpa using hvalid

theorem extractLoop_ok_entries (cs : List JValue) (v : List VEntry) (i : List IEntry)
    (h : extractLoop cs [] [] = .ok (v, i)) :
    (∀ e ∈ v, e.phone.data.length = 11 ∧ e.phone.data.all isPyDigit = true ∧
      is_valid_egyptian_mobile e.phone = true) ∧
    (∀ e ∈ i, e.phone.data.length = 11 ∧ e.phone.data.all isPyDigit = true ∧
      is_valid_egyptian_mobile e.phone = false ∧ e.reason = "غير صحيح") := by
  induction cs generalizing v i with
  | nil =>
    simp only [extractLoop] at h
    injection h with h
    cases h
    constructor <;> intro e he <;> simp at he
  | cons c rest ih =>
    cases hpc : processCompany c with
    | error e =>
      simp only [extractLoop, hpc] at h
      exact absurd h (by simp)
    | ok r =>
      simp only [extractLoop, hpc] at h
      rw [extractLoop_acc] at h
      cases hbase : extractLoop rest [] [] with
      | error e =>
        rw [hbase] at h
        simp [Except.map] at h
      | ok rb =>
        rw [hbase] at h
        simp only [Except.map] at h
        injection h with h
        cases h
        have hc1 := processCompany_ok_entries c r hpc
        have hrest := ih rb.1 rb.2 (by rw [hbase])
        constructor
        · intro e he
          simp only [List.nil_append, List.mem_append] at he
          rcases he with he | he
          · exact hc1.1 e he
          · exact hrest.1 e he
        · intro e he
          simp only [List.nil_append, List.mem_append] at he
          rcases he with he | he
          · exact hc1.2 e he
          · exact hrest.2 e he

theorem extract_of_error (data : JValue) (e : PyExn) (h : extractCore data = .error e) :
    extract_mobile_numbers data = [] := by
  unfold extract_mobile_numbers
  rw [h]

theorem extractCore_mkData (companies : List JValue) :
    extractCore (mkData companies) = extractLoop companies [] [] := rfl

theorem processCompany_mkRecord (id : JValue) (name : String) (p : String) :
    processCompany (mkRecord id name (JValue.str p)) =
      .ok (((findall11 p).partition is_valid_egyptian_mobile).1.map
            (fun q => ⟨JValue.str name, q, id⟩),
          ((findall11 p).partition is_valid_egyptian_mobile).2.map
            (fun q => ⟨JValue.str name, q, "غير صحيح"⟩)) := rfl

/-- The shape guard of line 52 as a predicate on the parsed value: a dict
whose `companies` entry is a list. -/
def hasCompaniesArr (data : JValue) : Bool :=
  match data with
  | .obj fields =>
    match fields.find? (fun f => f.1 == "companies") with
    | some f => isListVal f.2
    | none => false
  | _ => false

theorem extract_shape_fail (data : JValue) (h : hasCompaniesArr data = false) :
    extract_mobile_numbers data = [] := by
  cases data with
  | null => rfl
  | bool b => rfl
  | num n => rfl
  | str s =>
    by_cases hsub : ("companies".data : List Char) <:+: s.data
    · have h1 : extractCore (JValue.str s) = .error .typeError := by
        unfold extractCore
        rw [show pyContains (JValue.str s) "companies" = .ok true by
          simp [pyContains, hsub]]
        rfl
      exact extract_of_error _ _ h1
    · have h1 : extractCore (JValue.str s) = .ok ([], []) := by
        unfold extractCore
        rw [show pyContains (JValue.str s) "companies" = .ok false by
          simp [pyContains, hsub]]
        rfl
      unfold extract_mobile_numbers
      rw [h1]
  | arr elems =>
    by_cases hmem : elems.any (fun v => jeq v (JValue.str "companies")) = true
    · have h1 : extractCore (JValue.arr elems) = .error .typeError := by
        unfold extractCore
        rw [show pyContains (JValue.arr elems) "companies" = .ok true by
          simp [pyContains, hmem]]
        rfl
      exact extract_of_error _ _ h1
    · have hmem' : elems.any (fun v => jeq v (JValue.str "companies")) = false :=
        Bool.eq_false_iff.mpr hmem
      have h1 : extractCore (JValue.arr elems) = .ok ([], []) := by
        unfold extractCore
        rw [show pyContains (JValue.arr elems) "companies" = .ok false by
          show Except.ok (elems.any fun v => jeq v (JValue.str "companies")) = Except.ok false
          rw [hmem']]
        rfl
      unfold extract_mobile_numbers
      rw [h1]
  | obj fields =>
    by_cases hk : fields.any (fun f => f.1 == "companies") = true
    · have hsome : (fields.find? (fun f => f.1 == "companies")).isSome := by
        rw [List.find?_isSome]
        obtain ⟨f, hf, hpf⟩ := List.any_eq_true.mp hk
        exact ⟨f, hf, hpf⟩
      obtain ⟨f, hf⟩ := Option.isSome_iff_exists.mp hsome
      have hlist : isListVal f.2 = false := by
        simp only [hasCompaniesArr, hf] at h
        exact h
      have h1 : extractCore (JValue.obj fields) = .ok ([], []) := by
        unfold extractCore
        rw [show pyContains (JValue.obj fields) "companies" = .ok true by
          simp [pyContains, hk]]
        rw [exceptBind_ok, if_pos rfl]
        rw [show pyGetItem (JValue.obj fields) "companies" = .ok f.2 by
          simp [pyGetItem, hf]]
        rw [exceptBind_ok]
        rw [show (pure (isListVal f.2) : Except PyExn Bool) = .ok false by
          rw [hlist]; rfl]
        rfl
      unfold extract_mobile_numbers
      rw [h1]
    · have hk' : fields.any (fun f => f.1 == "companies") = false :=
        Bool.eq_false_iff.mpr hk
      have h1 : extractCore (JValue.obj fields) = .ok ([], []) := by
        unfold extractCore
        rw [show pyContains (JValue.obj fields) "companies" = .ok false by
          show Except.ok (fields.any fun f => f.1 == "companies") = Except.ok false
          rw [hk']]
        rfl
      unfold extract_mobile_numbers
      rw [h1]

theorem blocks11_length (r : List Char) : (blocks11 r).length = r.length / 11 := by
  rw [blocks11_eq]
  by_cases h : 11 ≤ r.length
  · rw [if_pos h]
    simp only [List.length_cons]
    rw [blocks11_length (r.drop 11)]
    simp only [List.length_drop]
    omega
  · rw [if_neg h]
    simp only [List.length_nil]
    omega
termination_by r.length
decreasing_by
  simp only [List.length_drop]
  omega

theorem blocks11_short (r : List Char) (h : r.length < 11) : blocks11 r = [] := by
  rw [blocks11_eq, if_neg (by omega)]

theorem extractCore_ok_entries (data : JValue) (v : List VEntry) (i : List IEntry)
    (h : extractCore data = .ok (v, i)) :
    (∀ e ∈ v, e.phone.data.length = 11 ∧ e.phone.data.all isPyDigit = true ∧
      is_valid_egyptian_mobile e.phone = true) ∧
    (∀ e ∈ i, e.phone.data.length = 11 ∧ e.phone.data.all isPyDigit = true ∧
      is_valid_egyptian_mobile e.phone = false ∧ e.reason = "غير صحيح") := by
  unfold extractCore at h
  cases hpc : pyContains data "companies" with
  | error e =>
    rw [hpc, exceptBind_error] at h
    exact absurd h (by simp)
  | ok hasKey =>
    rw [hpc, exceptBind_ok] at h
    cases hasKey with
    | false =>
      simp only [Bool.false_eq_true, if_false,
        show (pure false : Except PyExn Bool) = .ok false from rfl, exceptBind_ok,
        show (pure (([], []) : List VEntry × List IEntry) :
          Except PyExn (List VEntry × List IEntry)) = .ok ([], []) from rfl] at h
      injection h with h
      cases h
      constructor <;> intro e he <;> simp at he
    | true =>
      simp only [if_true] at h
      cases hgi : pyGetItem data "companies" with
      | error e =>
        rw [hgi, exceptBind_error] at h
        exact absurd h (by simp)
      | ok cs =>
        rw [hgi, exceptBind_ok] at h
        rw [show (pure (isListVal cs) : Except PyExn Bool) = .ok (isListVal cs) from rfl,
          exceptBind_ok] at h
        cases hl : isListVal cs with
        | false =>
          rw [hl] at h
          simp only [Bool.false_eq_true, if_false,
            show (pure (([], []) : List VEntry × List IEntry) :
              Except PyExn (List VEntry × List IEntry)) = .ok ([], []) from rfl] at h
          injection h with h
          cases h
          constructor <;> intro e he <;> simp at he
        | true =>
          rw [hl] at h
          simp only [if_true] at h
          rw [exceptBind_ok] at h
          cases cs with
          | arr companies => exact extractLoop_ok_entries companies v i h
          | null => simp [isListVal] at hl
          | bool b => simp [isListVal] at hl
          | num n => simp [isListVal] at hl
          | str s => simp [isListVal] at hl
          | obj fields => simp [isListVal] at hl

/-- Claim C1: on a string of exactly 11 decimal digits, the validator accepts
exactly when the string starts with one of 010, 011, 012, 015; and on any
digit-only string whose length is not 11 it rejects. -/
theorem claim_C1 :
    (∀ d : String, d.data.all Char.isDigit = true → d.data.length = 11 →
      (is_valid_egyptian_mobile d = true ↔
        (d.data.take 3 = ['0', '1', '0'] ∨ d.data.take 3 = ['0', '1', '1'] ∨
          d.data.take 3 = ['0', '1', '2'] ∨ d.data.take 3 = ['0', '1', '5']))) ∧
    (∀ s : String, s.data.all Char.isDigit = true → s.data.length ≠ 11 →
      is_valid_egyptian_mobile s = false) :=
  ⟨fun d hall hlen => is_valid_iff_of_digits11 d hall hlen,
    fun s hall hlen => is_valid_false_of_digits_ne11 s hall hlen⟩

/-- Witness for C1 at concrete inputs. -/
theorem claim_C1_witness :
    is_valid_egyptian_mobile "01012345678" = true ∧
    is_valid_egyptian_mobile "0101234567" = false :=
  ⟨(claim_C1.1 "01012345678" (by decide) (by decide)).mpr (Or.inl (by decide)),
    claim_C1.2 "0101234567" (by decide) (by decide)⟩

/-- Claim C2 counterexample: the extraction operation does not return a
pair — it returns only the valid list.  For the Beta record the operation
returns the empty list: no `\x7bname, phone, reason\x7d` entry for the run
"09912345678" appears in the returned value, although the internal scan
classifies the run as invalid. -/
theorem claim_C2_counterexample :
    extract_mobile_numbers
        (mkData [mkRecord (JValue.num 2) "Beta" (JValue.str "09912345678")]) = [] ∧
    extractCore (mkData [mkRecord (JValue.num 2) "Beta" (JValue.str "09912345678")]) =
      .ok ([], [⟨JValue.str "Beta", "09912345678", "غير صحيح"⟩]) :=
  ⟨rfl, rfl⟩

/-- Claim C2 (amended): the extraction builds an internal pair (valid,
invalid); adding the Beta record to any successfully processed collection
appends the `\x7bname, phone, reason\x7d` entry for its run to the internal
invalid list and leaves the valid list unaffected, but the operation
returns only the valid list. -/
theorem claim_C2_amended (cs : List JValue) (v : List VEntry) (i : List IEntry)
    (h : extractLoop cs [] [] = .ok (v, i)) :
    extractCore (mkData (cs ++ [mkRecord (JValue.num 2) "Beta"
        (JValue.str "09912345678")])) =
      .ok (v, i ++ [⟨JValue.str "Beta", "09912345678", "غير صحيح"⟩]) ∧
    extract_mobile_numbers (mkData (cs ++ [mkRecord (JValue.num 2) "Beta"
        (JValue.str "09912345678")])) = v := by
  have hbeta : extractLoop [mkRecord (JValue.num 2) "Beta" (JValue.str "09912345678")] [] [] =
      .ok ([], [⟨JValue.str "Beta", "09912345678", "غير صحيح"⟩]) := rfl
  have hall := extractLoop_append_ok cs
    [mkRecord (JValue.num 2) "Beta" (JValue.str "09912345678")] v [] i
    [⟨JValue.str "Beta", "09912345678", "غير صحيح"⟩] h hbeta
  rw [List.append_nil] at hall
  refine ⟨?_, ?_⟩
  · rw [extractCore_mkData]
    exact hall
  · unfold extract_mobile_numbers
    rw [extractCore_mkData, hall]

/-- Witness for C2 (amended) with one prior valid record. -/
theorem claim_C2_witness :
    extractCore (mkData ([mkRecord (JValue.num 1) "Acme" (JValue.str "01123456789")] ++
        [mkRecord (JValue.num 2) "Beta" (JValue.str "09912345678")])) =
      .ok ([⟨JValue.str "Acme", "01123456789", JValue.num 1⟩],
        [] ++ [⟨JValue.str "Beta", "09912345678", "غير صحيح"⟩]) ∧
    extract_mobile_numbers (mkData ([mkRecord (JValue.num 1) "Acme"
        (JValue.str "01123456789")] ++
        [mkRecord (JValue.num 2) "Beta" (JValue.str "09912345678")])) =
      [⟨JValue.str "Acme", "01123456789", JValue.num 1⟩] :=
  claim_C2_amended [mkRecord (JValue.num 1) "Acme" (JValue.str "01123456789")]
    [⟨JValue.str "Acme", "01123456789", JValue.num 1⟩] [] rfl

/-- Claim C3 counterexample: a phone field holding one valid number with
punctuation interspersed ("010-1234-5678") yields no captured run at all —
the scan runs on the raw string, which has no 11 consecutive digits — so
extraction produces zero entries, not one Valid entry, even though the
digit-stripped form "01012345678" passes the validator. -/
theorem claim_C3_counterexample :
    findall11 "010-1234-5678" = [] ∧
    normalizeDigits "010-1234-5678" = "01012345678" ∧
    is_valid_egyptian_mobile "01012345678" = true ∧
    extractCore (mkData [mkRecord (JValue.num 1) "Punct"
        (JValue.str "010-1234-5678")]) = .ok ([], []) ∧
    extract_mobile_numbers (mkData [mkRecord (JValue.num 1) "Punct"
        (JValue.str "010-1234-5678")]) = [] :=
  ⟨by decide, by decide, by decide, rfl, rfl⟩

/-- Claim C3 (amended): for a record whose phone field is exactly one valid
11-digit number whose digits are contiguous — punctuation may surround the
run but not interrupt it — extraction yields exactly one Valid entry
carrying that number. -/
theorem claim_C3_amended (idv : JValue) (nameStr mob : String) (pre post : List Char)
    (hpre : ∀ c ∈ pre, isPyDigit c = false)
    (hpost : ∀ c ∈ post, isPyDigit c = false)
    (hmob : mob.data.all isPyDigit = true) (hlen : mob.data.length = 11)
    (hval : is_valid_egyptian_mobile mob = true) :
    extractCore (mkData [mkRecord idv nameStr
        (JValue.str (String.mk (pre ++ mob.data ++ post)))]) =
      .ok ([⟨JValue.str nameStr, mob, idv⟩], []) := by
  have hfind : findall11 (String.mk (pre ++ mob.data ++ post)) = [mob] := by
    show ((findall11Chars (pre ++ mob.data ++ post)).map String.mk) = [mob]
    rw [List.append_assoc]
    rw [findall11Chars_append_nondigit pre _ hpre]
    rw [findall11Chars_run_append mob.data post
      (fun c hc => List.all_eq_true.mp hmob c hc)
      (fun c tl hct => hpost c (by rw [hct]; exact List.mem_cons_self c tl))]
    rw [show findall11Chars post = [] from by
      have h2 := findall11Chars_append_nondigit post [] hpost
      rw [List.append_nil] at h2
      rw [h2]
      rfl]
    rw [show blocks11 mob.data = [mob.data] from by
      rw [blocks11_eq, if_pos (by omega)]
      rw [List.take_of_length_le (by omega)]
      rw [show mob.data.drop 11 = [] from List.drop_eq_nil_of_le (by omega)]
      rw [show blocks11 ([] : List Char) = [] from rfl]]
    simp
  rw [extractCore_mkData]
  simp only [extractLoop, processCompany_mkRecord, hfind]
  simp [List.partition_eq_filter_filter, hval, extractLoop]

/-- Witness for C3 (amended) at a concrete punctuation-surrounded number. -/
theorem claim_C3_witness :
    extractCore (mkData [mkRecord (JValue.num 9) "Punct"
        (JValue.str (String.mk (['x'] ++ "01012345678".data ++ ['y'])))]) =
      .ok ([⟨JValue.str "Punct", "01012345678", JValue.num 9⟩], []) :=
  claim_C3_amended (JValue.num 9) "Punct" "01012345678" ['x'] ['y']
    (by decide) (by decide) (by decide) (by decide) (by decide)

/-- Claim C4 counterexample: a maximal run of 12 digits is not left
uncaptured — the scan captures its first 11 digits, and here that window
passes validation, so the run contributes a Valid entry. -/
theorem claim_C4_counterexample :
    digitRuns ("010123456789".data) = ["010123456789".data] ∧
    findall11 "010123456789" = ["01012345678"] ∧
    extract_mobile_numbers (mkData [mkRecord (JValue.num 4) "Long"
        (JValue.str "010123456789")]) =
      [⟨JValue.str "Long", "01012345678", JValue.num 4⟩] :=
  ⟨by decide, by decide, rfl⟩

/-- Claim C4 (amended): within the string form of the phone field the scan
captures, per maximal digit run, the consecutive non-overlapping 11-digit
blocks from the start of the run — `length / 11` of them — so runs shorter
than 11 contribute nothing and a run of exactly 11 is captured whole, but
longer runs do contribute their leading blocks. -/
theorem claim_C4_amended :
    (∀ s : String, findall11 s = ((digitRuns s.data).flatMap blocks11).map String.mk) ∧
    (∀ r : List Char, (blocks11 r).length = r.length / 11) ∧
    (∀ r : List Char, r.length < 11 → blocks11 r = []) :=
  ⟨fun s => by
    show ((findall11Chars s.data).map String.mk) = _
    rw [findall11Chars_eq_runs],
    blocks11_length,
    blocks11_short⟩

/-- Witness for C4 (amended) on a 12-digit run and a short run. -/
theorem claim_C4_witness :
    findall11 "010123456789" =
      ((digitRuns "010123456789".data).flatMap blocks11).map String.mk ∧
    (blocks11 "010123456789".data).length = 1 ∧
    blocks11 "0123".data = [] := by
  refine ⟨claim_C4_amended.1 "010123456789", ?_, claim_C4_amended.2.2 "0123".data (by decide)⟩
  rw [claim_C4_amended.2.1 "010123456789".data]
  decide

/-- Claim C5: in any successfully scanned collection, every Valid entry
carries exactly 11 decimal digits starting with one of the four carrier
ranges, and every Invalid entry carries exactly 11 decimal digits whose
leading three are outside the four ranges. -/
theorem claim_C5 (data : JValue) (v : List VEntry) (i : List IEntry)
    (h : extractCore data = .ok (v, i)) :
    (∀ e ∈ v, e.phone.data.length = 11 ∧ e.phone.data.all Char.isDigit = true ∧
      (e.phone.data.take 3 = ['0', '1', '0'] ∨ e.phone.data.take 3 = ['0', '1', '1'] ∨
        e.phone.data.take 3 = ['0', '1', '2'] ∨ e.phone.data.take 3 = ['0', '1', '5'])) ∧
    (∀ e ∈ i, e.phone.data.length = 11 ∧ e.phone.data.all Char.isDigit = true ∧
      ¬(e.phone.data.take 3 = ['0', '1', '0'] ∨ e.phone.data.take 3 = ['0', '1', '1'] ∨
        e.phone.data.take 3 = ['0', '1', '2'] ∨ e.phone.data.take 3 = ['0', '1', '5'])) := by
  obtain ⟨h1, h2⟩ := extractCore_ok_entries data v i h
  constructor
  · intro e he
    obtain ⟨h11, hall, hv⟩ := h1 e he
    exact ⟨h11, hall, (is_valid_iff_of_digits11 e.phone hall h11).mp hv⟩
  · intro e he
    obtain ⟨h11, hall, hv, _⟩ := h2 e he
    refine ⟨h11, hall, fun hcontra => ?_⟩
    have hcv := (is_valid_iff_of_digits11 e.phone hall h11).mpr hcontra
    rw [hv] at hcv
    exact absurd hcv (by simp)

/-- Witness for C5 on a collection with one valid and one invalid number. -/
theorem claim_C5_witness :
    "01123456789".data.length = 11 ∧ "01123456789".data.all Char.isDigit = true ∧
    ("01123456789".data.take 3 = ['0', '1', '0'] ∨
      "01123456789".data.take 3 = ['0', '1', '1'] ∨
      "01123456789".data.take 3 = ['0', '1', '2'] ∨
      "01123456789".data.take 3 = ['0', '1', '5']) ∧
    ¬("09912345678".data.take 3 = ['0', '1', '0'] ∨
      "09912345678".data.take 3 = ['0', '1', '1'] ∨
      "09912345678".data.take 3 = ['0', '1', '2'] ∨
      "09912345678".data.take 3 = ['0', '1', '5']) := by
  have h := claim_C5 (mkData [mkRecord (JValue.num 1) "Acme" (JValue.str "01123456789"),
      mkRecord (JValue.num 2) "Beta" (JValue.str "09912345678")])
    [⟨JValue.str "Acme", "01123456789", JValue.num 1⟩]
    [⟨JValue.str "Beta", "09912345678", "غير صحيح"⟩] rfl
  have hv := h.1 ⟨JValue.str "Acme", "01123456789", JValue.num 1⟩ (by simp)
  have hi := h.2 ⟨JValue.str "Beta", "09912345678", "غير صحيح"⟩ (by simp)
  exact ⟨hv.1, hv.2.1, hv.2.2, hi.2.2⟩

/-- Claim C6: extraction preserves record order — the results of a
concatenated collection are the concatenated results — and within a record
the captured runs appear left to right: the Gamma record with two
concatenated 11-digit numbers produces exactly its two entries in
left-to-right order. -/
theorem claim_C6 :
    (∀ (cs₁ cs₂ : List JValue) (v₁ v₂ : List VEntry) (i₁ i₂ : List IEntry),
      extractLoop cs₁ [] [] = .ok (v₁, i₁) → extractLoop cs₂ [] [] = .ok (v₂, i₂) →
      extractCore (mkData (cs₁ ++ cs₂)) = .ok (v₁ ++ v₂, i₁ ++ i₂)) ∧
    extract_mobile_numbers (mkData [mkRecord (JValue.num 3) "Gamma"
        (JValue.str "0101234567801112345678")]) =
      [⟨JValue.str "Gamma", "01012345678", JValue.num 3⟩,
        ⟨JValue.str "Gamma", "01112345678", JValue.num 3⟩] :=
  ⟨fun cs₁ cs₂ v₁ v₂ i₁ i₂ h₁ h₂ => by
    rw [extractCore_mkData]
    exact extractLoop_append_ok cs₁ cs₂ v₁ v₂ i₁ i₂ h₁ h₂, rfl⟩

/-- Witness for C6 concatenating two one-record collections. -/
theorem claim_C6_witness :
    extractCore (mkData ([mkRecord (JValue.num 1) "Acme" (JValue.str "01123456789")] ++
        [mkRecord (JValue.num 2) "Beta" (JValue.str "09912345678")])) =
      .ok ([⟨JValue.str "Acme", "01123456789", JValue.num 1⟩] ++ [],
        [] ++ [⟨JValue.str "Beta", "09912345678", "غير صحيح"⟩]) :=
  claim_C6.1 [mkRecord (JValue.num 1) "Acme" (JValue.str "01123456789")]
    [mkRecord (JValue.num 2) "Beta" (JValue.str "09912345678")]
    [⟨JValue.str "Acme", "01123456789", JValue.num 1⟩] []
    [] [⟨JValue.str "Beta", "09912345678", "غير صحيح"⟩] rfl rfl

/-- Claim C7: the core never raises — an empty collection yields the empty
pair, any value failing the shape guard yields the empty result, and any
internal exception is caught and mapped to the empty result. -/
theorem claim_C7 :
    extractCore (mkData []) = .ok ([], []) ∧
    extract_mobile_numbers (mkData []) = [] ∧
    (∀ data : JValue, hasCompaniesArr data = false → extract_mobile_numbers data = []) ∧
    (∀ (data : JValue) (e : PyExn), extractCore data = .error e →
      extract_mobile_numbers data = []) :=
  ⟨rfl, rfl, extract_shape_fail, extract_of_error⟩

/-- Witness for C7 on malformed top-level values. -/
theorem claim_C7_witness :
    extract_mobile_numbers (JValue.num 7) = [] ∧
    extract_mobile_numbers (JValue.obj [("other", JValue.null)]) = [] :=
  ⟨claim_C7.2.2.2 (JValue.num 7) PyExn.typeError rfl,
    claim_C7.2.2.1 (JValue.obj [("other", JValue.null)]) rfl⟩

/-- Claim C8: a record whose guard finds no phone field contributes the
empty pair, and removing such a record from anywhere in the collection
leaves the extraction result unchanged. -/
theorem claim_C8 :
    (∀ company : JValue, companyHasPhone company = .ok false →
      processCompany company = .ok ([], [])) ∧
    (∀ (pre post : List JValue) (r : JValue), processCompany r = .ok ([], []) →
      extractLoop (pre ++ r :: post) [] [] = extractLoop (pre ++ post) [] []) := by
  refine ⟨processCompany_skip, ?_⟩
  intro pre post r h
  induction pre with
  | nil =>
    simp only [List.nil_append, extractLoop, h]
  | cons c pre ih =>
    simp only [List.cons_append, extractLoop]
    cases hpc : processCompany c with
    | error e => rfl
    | ok rc =>
      show extractLoop (pre ++ r :: post) ([] ++ rc.1) ([] ++ rc.2) =
        extractLoop (pre ++ post) ([] ++ rc.1) ([] ++ rc.2)
      rw [extractLoop_acc (pre ++ r :: post), extractLoop_acc (pre ++ post), ih]

/-- Witness for C8: a record with no phone field between two records. -/
theorem claim_C8_witness :
    processCompany (JValue.obj [("company_name_arabic", JValue.str "NoPhone")]) =
      .ok ([], []) ∧
    extractLoop ([mkRecord (JValue.num 1) "Acme" (JValue.str "01123456789")] ++
        (JValue.obj [("company_name_arabic", JValue.str "NoPhone")]) ::
        [mkRecord (JValue.num 2) "Beta" (JValue.str "09912345678")]) [] [] =
      extractLoop ([mkRecord (JValue.num 1) "Acme" (JValue.str "01123456789")] ++
        [mkRecord (JValue.num 2) "Beta" (JValue.str "09912345678")]) [] [] := by
  have h1 := claim_C8.1 (JValue.obj [("company_name_arabic", JValue.str "NoPhone")]) rfl
  exact ⟨h1, claim_C8.2 [mkRecord (JValue.num 1) "Acme" (JValue.str "01123456789")]
    [mkRecord (JValue.num 2) "Beta" (JValue.str "09912345678")] _ h1⟩

/-- Claim C9: the validator normalizes its own input — it agrees with
itself on the digit-stripped form of any string — and in particular it
accepts the punctuated "010-1234-5678" although its raw length is 13. -/
theorem claim_C9 :
    (∀ s : String, is_valid_egyptian_mobile s =
      is_valid_egyptian_mobile (normalizeDigits s)) ∧
    "010-1234-5678".length ≠ 11 ∧
    is_valid_egyptian_mobile "010-1234-5678" = true :=
  ⟨is_valid_normalize, by decide, by decide⟩

/-- Claim C10: an exception while scanning any record makes the whole
operation return the empty list — here the first record alone yields a
valid entry, but appending a non-mapping record discards it. -/
theorem claim_C10 :
    (∀ (data : JValue) (e : PyExn), extractCore data = .error e →
      extract_mobile_numbers data = []) ∧
    processCompany (mkRecord (JValue.num 1) "Acme" (JValue.str "01123456789")) =
      .ok ([⟨JValue.str "Acme", "01123456789", JValue.num 1⟩], []) ∧
    extractCore (mkData [mkRecord (JValue.num 1) "Acme" (JValue.str "01123456789"),
        JValue.num 5]) = .error .typeError ∧
    extract_mobile_numbers (mkData [mkRecord (JValue.num 1) "Acme"
        (JValue.str "01123456789"), JValue.num 5]) = [] :=
  ⟨extract_of_error, rfl, rfl, rfl⟩

/-- Witness for C10 at a collection whose only record is a bare number. -/
theorem claim_C10_witness :
    extract_mobile_numbers (mkData [JValue.num 5]) = [] :=
  claim_C10.1 (mkData [JValue.num 5]) PyExn.typeError rfl
